import Mathlib

/-!
Verification of the advanced-vector container.

Shallow embedding of `src/advanced-vector/vector.h`: `RawMemory<T>` plus
`Vector<T>`.  A `Vector<T>` object is modelled by the list of its live
elements (the slots `[0, size_)`), the capacity of its `RawMemory` buffer,
and an abstract identity for the buffer allocation (fresh allocations get a
new identity; this expresses reallocation and address stability).  `size_`
is the length of the element list, which is exactly the class invariant
"positions `[0, size)` are live, `[size, capacity)` are raw memory".

Fallible element constructors (for the exception-safety claims) are
modelled by a fuel argument: the first `fuel` constructor calls succeed and
the next one fails.  Operations that must account for destructor calls
return those counts explicitly.
-/

namespace AdvVec

variable {α : Type}

/-- Model of `Vector<T>` (vector.h:40-93): live elements in slot order,
`RawMemory` capacity, and the identity of the current allocation. -/
structure Vec (α : Type) where
  elems : List α
  capacity : Nat
  bufferId : Nat
deriving Repr, DecidableEq

/-- Source: `Vector<T>::Size` (vector.h:372-375): the count of live elements. -/
def Vec.size (v : Vec α) : Nat := v.elems.length

/-- The C++ type traits that `if constexpr` branches on in the source. -/
structure TypeTraits where
  is_nothrow_move_constructible : Bool
  is_copy_constructible : Bool
deriving Repr, DecidableEq

/-- The relocation condition appearing verbatim at vector.h:314 (Resize),
vector.h:363 (Reserve), vector.h:398 (EmplaceInNewAlloc) and vector.h:414
(EmplaceInCurrentAlloc):
`std::is_nothrow_move_constructible_v<T> || !std::is_copy_constructible_v<T>`.
When it holds the code relocates by move construction, otherwise by copy. -/
def relocationUsesMove (tr : TypeTraits) : Bool :=
  tr.is_nothrow_move_constructible || !tr.is_copy_constructible

/-- Second definition for the refinement claim C7, following the spec's words
(§4.3): move exactly when T's move construction is guaranteed not to fail,
or when T has no usable copy constructor; copy otherwise. -/
def specUsesMove (tr : TypeTraits) : Bool :=
  tr.is_nothrow_move_constructible || !tr.is_copy_constructible

/-- Model of `std::uninitialized_copy_n(src, n, dst)` / `uninitialized_move_n`
into fresh storage, successful case: the first `n` source elements are
constructed in the destination in index order (values preserved). -/
def relocateN (l : List α) (n : Nat) : List α := l.take n

/-- The relocation step of `Vector<T>::Reserve` (vector.h:363-367),
parameterized by what one move construction and one copy construction do to
an element value, so that which one is used is observable. -/
def reserveRelocate (tr : TypeTraits) (moveOne copyOne : α → α)
    (l : List α) (n : Nat) : List α :=
  if relocationUsesMove tr then (relocateN l n).map moveOne
  else (relocateN l n).map copyOne

/-- The relocation step of `Vector<T>::EmplaceInNewAlloc` (vector.h:398-404):
the block `[0, pos_index)` is relocated to `[0, pos_index)` and the block
`[pos_index, size_)` to `[pos_index+1, size_+1)` around the new element,
by move or copy according to the same trait condition. -/
def emplaceNewRelocate (tr : TypeTraits) (moveOne copyOne : α → α)
    (l : List α) (posIndex : Nat) (x : α) : List α :=
  if relocationUsesMove tr then
    (l.take posIndex).map moveOne ++ [x] ++ (l.drop posIndex).map moveOne
  else
    (l.take posIndex).map copyOne ++ [x] ++ (l.drop posIndex).map copyOne

/-- Source: `Vector<T>::Reserve` (vector.h:357-370): no-op when
`new_capacity <= data_.Capacity()`; otherwise allocate a new buffer (fresh
identity), relocate the `size_` live elements in index order (move or copy;
either way the values are preserved on success), destroy the old elements
and swap the buffers. -/
def Vec.reserve (v : Vec α) (newCapacity : Nat) : Vec α :=
  if newCapacity ≤ v.capacity then v
  else { elems := relocateN v.elems v.size
         capacity := newCapacity
         bufferId := v.bufferId + 1 }

/-- Model of `std::move_backward(first, last, d_last)` on the slot array: slots
`[d_last - (last - first), d_last)` receive the values of slots
`[first, last)`; all other slots keep their values.  The C++ loop runs
backward, so every source slot is read before it can be overwritten; hence
reading the pre-call values below is exact. -/
def moveBackwardSeg [Inhabited α] (l : List α) (first last dlast : Nat) :
    List α :=
  (List.range l.length).map fun j =>
    if dlast - (last - first) ≤ j ∧ j < dlast then
      l.getD (j - (dlast - last)) default
    else
      l.getD j default

/-- Model of `std::move(first, last, d_first)` on the slot array: slots
`[d_first, d_first + (last - first))` receive the values of slots
`[first, last)`.  The loop runs forward and `d_first <= first`, so every
source slot is read before it can be overwritten. -/
def moveForwardSeg [Inhabited α] (l : List α) (first last dfirst : Nat) :
    List α :=
  (List.range l.length).map fun j =>
    if dfirst ≤ j ∧ j < dfirst + (last - first) then
      l.getD (j + (first - dfirst)) default
    else
      l.getD j default

/-- Source: `Vector<T>::EmplaceInCurrentAlloc` (vector.h:409-424), success path.
For `pos_index < size_`: the argument value is materialised in a temporary,
a new element is constructed at slot `size_` from the current last element
(slot `size_ - 1`), `std::move_backward(begin()+pos_index, end()-1, end())`
shifts the tail right by one, and the temporary is move-assigned into slot
`pos_index`.  For `pos_index == size_` the element is constructed directly
at slot `size_`. -/
def emplaceInCurrentAlloc [Inhabited α] (l : List α) (posIndex : Nat)
    (x : α) : List α :=
  if posIndex < l.length then
    let l1 := l ++ [l.getD (l.length - 1) default]
    let l2 := moveBackwardSeg l1 posIndex (l.length - 1) l.length
    l2.set posIndex x
  else
    l ++ [x]

/-- The element arrangement produced by `Vector<T>::EmplaceInNewAlloc`
(vector.h:393-407) on success: new element at `pos_index` in the new
buffer, block `[0, pos_index)` relocated to `[0, pos_index)`, block
`[pos_index, size_)` relocated to `[pos_index+1, size_+1)`. -/
def emplaceInNewAllocElems (l : List α) (posIndex : Nat) (x : α) : List α :=
  relocateN l posIndex ++ [x] ++ relocateN (l.drop posIndex) (l.length - posIndex)

/-- The new capacity chosen by `EmplaceInNewAlloc` (vector.h:396):
`size_ == 0 ? 1 : size_ * 2`. -/
def growthCapacity (sz : Nat) : Nat := if sz = 0 then 1 else sz * 2

/-- Source: `Vector<T>::Emplace` (vector.h:208-224): the position iterator is
converted to a 0-based `pos_index` (one past last maps to `size_`); with
`size_ == data_.Capacity()` the element is built in a freshly allocated
buffer, otherwise in place; then `++size_`, and `begin() + pos_index` is
returned.  The second component is the index of the returned iterator.
`Insert` (vector.h:241-249), `PushBack` (vector.h:330-338) and
`EmplaceBack` (vector.h:340-344) all delegate to this with the
corresponding position. -/
def Vec.emplace [Inhabited α] (v : Vec α) (posIndex : Nat) (x : α) :
    Vec α × Nat :=
  if v.size = v.capacity then
    ({ elems := emplaceInNewAllocElems v.elems posIndex x
       capacity := growthCapacity v.size
       bufferId := v.bufferId + 1 }, posIndex)
  else
    ({ elems := emplaceInCurrentAlloc v.elems posIndex x
       capacity := v.capacity
       bufferId := v.bufferId }, posIndex)

/-- Element-level effect of `Vector<T>::Erase` (vector.h:226-239): when
`pos_index < size_ - 1`, `std::move(pos+1, end(), pos)` shifts the tail
left by one; then `std::destroy_at(data_ + size_ - 1)` destroys the
vacated last slot and `--size_`. -/
def eraseElems [Inhabited α] (l : List α) (posIndex : Nat) : List α :=
  let l1 := if posIndex < l.length - 1 then
      moveForwardSeg l (posIndex + 1) l.length posIndex
    else l
  l1.dropLast

/-- Source: `Vector<T>::Erase` (vector.h:226-239).  Second component: the index of
the returned iterator, `begin() + pos_index`. -/
def Vec.erase [Inhabited α] (v : Vec α) (posIndex : Nat) : Vec α × Nat :=
  ({ elems := eraseElems v.elems posIndex
     capacity := v.capacity
     bufferId := v.bufferId }, posIndex)

/-- Vector copy constructor (vector.h:258-263): a fresh buffer of capacity
`other.size_`, the elements copied in index order.  `freshId` is the
identity of the new allocation. -/
def Vec.copyCtor (r : Vec α) (freshId : Nat) : Vec α :=
  { elems := relocateN r.elems r.size
    capacity := r.size
    bufferId := freshId }

/-- Element-level effect of the capacity-fits branch of
`Vector<T>::operator=(const Vector&)` (vector.h:278-289): destroy the
excess elements beyond `rhs.size_` (if any), `std::copy` the overlapping
first `min(size_, rhs.size_)` elements, then `uninitialized_copy_n` the
elements beyond the current size (if any); finally `size_ = rhs.size_`. -/
def copyAssignFitsElems (t r : List α) : List α :=
  let m := min t.length r.length
  let t1 := if r.length < t.length then t.take r.length else t
  let t2 := r.take m ++ t1.drop m
  if t.length < r.length then t2 ++ r.drop t.length else t2

/-- Source: `Vector<T>::operator=(const Vector&)` (vector.h:272-292).  `aliased`
models `this == &rhs` (in which case `t` and `r` denote the same object and
the body is skipped).  When `rhs.size_ > data_.Capacity()`, a full copy is
constructed (`Vector tmp(rhs)`) and swapped in, so the target takes the
fresh copy's buffer; otherwise the element-wise path above runs in the
existing buffer. -/
def Vec.copyAssign (aliased : Bool) (t r : Vec α) : Vec α :=
  if aliased then t
  else if t.capacity < r.size then
    Vec.copyCtor r (t.bufferId + r.bufferId + 1)
  else
    { elems := copyAssignFitsElems t.elems r.elems
      capacity := t.capacity
      bufferId := t.bufferId }

/-- Source: `Vector<T>::operator=(Vector&&)` (vector.h:294-302) together with
`RawMemory<T>::operator=(RawMemory&&)` (vector.h:107-117).  Result:
(new target, new source, number of element destructor invocations performed
on the target's old live elements before the target's old buffer is
deallocated).  The code performs none: `data_ = std::move(rhs.data_)`
reaches RawMemory's move assignment, which calls `Deallocate(buffer_)` on
the old block directly, with no `std::destroy_n` anywhere on this path.
The source is left empty (null buffer, capacity 0, size 0). -/
def Vec.moveAssign (aliased : Bool) (t r : Vec α) : (Vec α × Vec α) × Nat :=
  if aliased then ((t, r), 0)
  else (({ elems := r.elems, capacity := r.capacity, bufferId := r.bufferId },
         { elems := [], capacity := 0, bufferId := 0 }), 0)

/-- Source: `Vector<T>::Swap` (vector.h:304-308) with `RawMemory<T>::Swap`
(vector.h:147-151): `std::swap` of the buffer pointer, the capacity and
`size_`.  The `Nat` component counts the element constructions, copies,
moves and destructions performed: the code only swaps a pointer and two
integers, so zero. -/
def Vec.swapOp (a b : Vec α) : (Vec α × Vec α) × Nat :=
  (({ elems := b.elems, capacity := b.capacity, bufferId := b.bufferId },
    { elems := a.elems, capacity := a.capacity, bufferId := a.bufferId }), 0)

/-- Outcome record of a failed growth relocation: how many elements had
been constructed in the destination buffer when the failure escaped, and
how many of those were destroyed before the destination block was
deallocated.  A leak is `constructedDest ≠ destroyedDest`. -/
structure GrowthFailure where
  constructedDest : Nat
  destroyedDest : Nat
deriving Repr, DecidableEq

/-- Model of `std::uninitialized_copy_n` with a fallible element constructor,
modelled by `fuel` = the number of constructor calls that still succeed.
On success the remaining fuel is returned.  On failure (`fuel < n`), per
the standard's cleanup guarantee the algorithm destroys the `fuel`
elements it had itself constructed, giving `(constructed, destroyed) =
(fuel, fuel)` before the exception escapes. -/
def uninitCopyN (fuel n : Nat) : Except (Nat × Nat) Nat :=
  if n ≤ fuel then .ok (fuel - n) else .error (fuel, fuel)

/-- Source: `Vector<T>::EmplaceInNewAlloc` (vector.h:393-407) on the
copy-relocation branch (T copy-constructible, move not noexcept), with a
fallible constructor budget.  Constructor-call order: the new element at
`pos_index` (one call, vector.h:397), then `uninitialized_copy_n` of the
`pos_index`-element block, then of the `size_ - pos_index`-element block.
There is no try/catch: when a `uninitialized_copy_n` call fails, only its
own `d` constructions are destroyed; every element constructed earlier in
the destination is abandoned — the new element when the first block fails
(`destroyed = d`, leak of 1), and both the new element and the whole
already-copied first block when the second block fails (`destroyed = d`,
leak of `1 + posIndex`) — and `new_data`'s RawMemory destructor
deallocates the block without destroying them.  `data_` is only mutated
(`destroy_n` + `Swap`, vector.h:405-406) after the relocation succeeds,
so on failure the container state propagates out unchanged. -/
def Vec.emplaceGrowthCopy (v : Vec α) (posIndex : Nat) (x : α)
    (fuel : Nat) : Except (GrowthFailure × Vec α) (Vec α) :=
  if fuel = 0 then .error (⟨0, 0⟩, v)
  else
    match uninitCopyN (fuel - 1) posIndex with
    | .error (c, d) => .error (⟨1 + c, d⟩, v)
    | .ok fuel2 =>
      match uninitCopyN fuel2 (v.size - posIndex) with
      | .error (c, d) => .error (⟨1 + posIndex + c, d⟩, v)
      | .ok _ =>
        .ok { elems := emplaceInNewAllocElems v.elems posIndex x
              capacity := growthCapacity v.size
              bufferId := v.bufferId + 1 }

/-- Outcome record of a failed `Resize` growth: how many of the new slots
were successfully constructed, the total destructor calls on those slots,
and the destructor calls on slots of the new range that were never
constructed. -/
structure ResizeFailure where
  constructedNew : Nat
  dtorCallsOnConstructed : Nat
  dtorCallsOnUninit : Nat
deriving Repr, DecidableEq

/-- Source: `Vector<T>::Resize` (vector.h:310-328) with a fallible default
constructor for the new slots (`fuel` = the number of `T()` calls that
succeed; the relocation inside `Reserve` is not charged, since the claim
concerns the default construction of the newly exposed slots).  Growing
branch: `Reserve(new_size)` first, then
`std::uninitialized_value_construct_n(data_ + size_, n)` with
`n = new_size - size_`.  When that fails after `k = fuel` constructions,
the algorithm itself destroys those `k` elements (standard cleanup
guarantee); in the branch without a nothrow move (and with a copy
constructor, vector.h:316-322) the surrounding `catch` then additionally
runs `std::destroy_n(data_ + size_, n)` over the whole range: `k` more
destructor calls on the already-destroyed slots plus `n - k` destructor
calls on slots that were never constructed.  The exception escapes before
`size_ = new_size`, and `Reserve` has already swapped in the new buffer,
so the failed state keeps the old elements with the new capacity.
Shrinking-or-equal branch: `destroy_n` the tail, set `size_`. -/
def Vec.resizeTracked [Inhabited α] (tr : TypeTraits) (v : Vec α)
    (newSize fuel : Nat) : Except (ResizeFailure × Vec α) (Vec α) :=
  if v.size < newSize then
    let v1 := v.reserve newSize
    let n := newSize - v.size
    if n ≤ fuel then
      .ok { elems := v1.elems ++ List.replicate n default
            capacity := v1.capacity
            bufferId := v1.bufferId }
    else if relocationUsesMove tr then
      .error (⟨fuel, fuel, 0⟩, v1)
    else
      .error (⟨fuel, 2 * fuel, n - fuel⟩, v1)
  else
    .ok { elems := v.elems.take newSize
          capacity := v.capacity
          bufferId := v.bufferId }

/-- A sequence of `Emplace` calls (position index, value), applied in
order; `Insert`, `PushBack` and `EmplaceBack` are all `Emplace` in the
source. -/
def Vec.applyEmplaces [Inhabited α] (v : Vec α) (ops : List (Nat × α)) :
    Vec α :=
  ops.foldl (fun acc op => (acc.emplace op.1 op.2).1) v

/-! Helper lemmas about indexed access. -/

/-- Two lists of equal length agreeing on `getD` at every valid index are
equal. -/
theorem getD_ext [Inhabited α] {l1 l2 : List α} (hlen : l1.length = l2.length)
    (h : ∀ i, i < l1.length → l1.getD i default = l2.getD i default) :
    l1 = l2 := by
  apply List.ext_getElem hlen
  intro i h1 h2
  have hi := h i h1
  rwa [List.getD_eq_getElem _ _ h1, List.getD_eq_getElem _ _ h2] at hi

theorem getD_set [Inhabited α] (xs : List α) (m i : Nat) (a : α)
    (hi : i < xs.length) :
    (xs.set m a).getD i default = if m = i then a else xs.getD i default := by
  rw [List.getD_eq_getElem _ _ (by simpa using hi), List.getElem_set]
  split
  · rfl
  · rw [List.getD_eq_getElem _ _ hi]

theorem getD_take [Inhabited α] (l : List α) (n i : Nat) (h1 : i < n)
    (h2 : i < l.length) :
    (l.take n).getD i default = l.getD i default := by
  rw [List.getD_eq_getElem _ _ (by simp [List.length_take]; omega),
    List.getElem_take, List.getD_eq_getElem _ _ h2]

theorem getD_drop [Inhabited α] (l : List α) (n i : Nat)
    (h : n + i < l.length) :
    (l.drop n).getD i default = l.getD (n + i) default := by
  rw [List.getD_eq_getElem _ _ (by simp [List.length_drop]; omega),
    List.getElem_drop, List.getD_eq_getElem _ _ h]

theorem moveBackwardSeg_length [Inhabited α] (l : List α)
    (first last dlast : Nat) :
    (moveBackwardSeg l first last dlast).length = l.length := by
  simp [moveBackwardSeg]

theorem moveForwardSeg_length [Inhabited α] (l : List α)
    (first last dfirst : Nat) :
    (moveForwardSeg l first last dfirst).length = l.length := by
  simp [moveForwardSeg]

theorem moveBackwardSeg_getD [Inhabited α] (l : List α)
    (first last dlast i : Nat) (hi : i < l.length) :
    (moveBackwardSeg l first last dlast).getD i default =
      if dlast - (last - first) ≤ i ∧ i < dlast then
        l.getD (i - (dlast - last)) default
      else l.getD i default := by
  unfold moveBackwardSeg
  rw [List.getD_eq_getElem _ _ (by simpa using hi)]
  rw [List.getElem_map, List.getElem_range]

theorem moveForwardSeg_getD [Inhabited α] (l : List α)
    (first last dfirst i : Nat) (hi : i < l.length) :
    (moveForwardSeg l first last dfirst).getD i default =
      if dfirst ≤ i ∧ i < dfirst + (last - first) then
        l.getD (i + (first - dfirst)) default
      else l.getD i default := by
  unfold moveForwardSeg
  rw [List.getD_eq_getElem _ _ (by simpa using hi)]
  rw [List.getElem_map, List.getElem_range]

/-- Index-wise description of `l.take pos ++ [x] ++ l.drop pos`. -/
theorem insertMid_getD [Inhabited α] (l : List α) (pos i : Nat) (x : α)
    (hpos : pos ≤ l.length) (hi : i < l.length + 1) :
    (l.take pos ++ [x] ++ l.drop pos).getD i default =
      if i < pos then l.getD i default
      else if i = pos then x
      else l.getD (i - 1) default := by
  have hA : (l.take pos).length = pos := by simp [List.length_take]; omega
  by_cases h1 : i < pos
  · rw [if_pos h1]
    rw [List.getD_append _ _ _ i (by simp [hA]; omega)]
    rw [List.getD_append _ _ _ i (by omega)]
    exact getD_take l pos i h1 (by omega)
  · rw [if_neg h1]
    by_cases h2 : i = pos
    · subst h2
      rw [if_pos rfl]
      rw [List.getD_append _ _ _ i (by simp [hA])]
      rw [List.getD_append_right _ _ _ i (by omega)]
      simp [hA]
    · rw [if_neg h2]
      rw [List.getD_append_right _ _ _ i (by simp [hA]; omega)]
      have hlen2 : (l.take pos ++ [x]).length = pos + 1 := by simp [hA]
      rw [hlen2]
      rw [getD_drop l pos (i - (pos + 1)) (by omega)]
      congr 1
      omega

/-! Net effect of the relocation and shift paths. -/

/-- On success, the growth path of Emplace arranges the elements as the
insertion of `x` at `posIndex`. -/
theorem emplaceInNewAllocElems_eq (l : List α) (posIndex : Nat) (x : α) :
    emplaceInNewAllocElems l posIndex x
      = l.take posIndex ++ [x] ++ l.drop posIndex := by
  unfold emplaceInNewAllocElems relocateN
  congr 1
  rw [show l.length - posIndex = (l.drop posIndex).length by simp,
    List.take_length]

/-- The in-place path of Emplace (temporary, end-construction from the last
element, backward shift, assignment into the hole) also nets out to the
insertion of `x` at `posIndex`. -/
theorem emplaceInCurrentAlloc_eq [Inhabited α] (l : List α) (posIndex : Nat)
    (x : α) (hpos : posIndex ≤ l.length) :
    emplaceInCurrentAlloc l posIndex x
      = l.take posIndex ++ [x] ++ l.drop posIndex := by
  by_cases h : posIndex < l.length
  · unfold emplaceInCurrentAlloc
    rw [if_pos h]
    have hL1 : (l ++ [l.getD (l.length - 1) default]).length = l.length + 1 := by
      simp
    apply getD_ext
    · rw [List.length_set, moveBackwardSeg_length, hL1]
      simp [List.length_take, List.length_drop]
      omega
    · intro i hi
      have hi' : i < l.length + 1 := by
        rw [List.length_set, moveBackwardSeg_length, hL1] at hi
        exact hi
      rw [getD_set _ _ _ _ (by rw [moveBackwardSeg_length, hL1]; exact hi')]
      rw [moveBackwardSeg_getD _ _ _ _ _ (by rw [hL1]; exact hi')]
      rw [insertMid_getD l posIndex i x hpos hi']
      by_cases h1 : posIndex = i
      · subst h1
        rw [if_pos rfl, if_neg (by omega : ¬posIndex < posIndex), if_pos rfl]
      · rw [if_neg h1]
        by_cases h2 : l.length - (l.length - 1 - posIndex) ≤ i ∧ i < l.length
        · rw [if_pos h2]
          rw [if_neg (by omega), if_neg (by omega)]
          rw [show i - (l.length - (l.length - 1)) = i - 1 by omega]
          exact List.getD_append _ _ _ (i - 1) (by omega)
        · rw [if_neg h2]
          by_cases h3 : i < posIndex
          · rw [if_pos h3]
            exact List.getD_append _ _ _ i (by omega)
          · rw [if_neg h3, if_neg (fun he => h1 he.symm)]
            have hieq : i = l.length := by omega
            subst hieq
            rw [List.getD_append_right _ _ _ _ (by omega)]
            simp only [Nat.sub_self, List.getD_cons_zero]
  · unfold emplaceInCurrentAlloc
    rw [if_neg h]
    have hp : posIndex = l.length := by omega
    subst hp
    simp

/-- The forward shift plus tail destruction of Erase nets out to removing
the element at `posIndex`. -/
theorem eraseElems_eq [Inhabited α] (l : List α) (posIndex : Nat)
    (h : posIndex < l.length) :
    eraseElems l posIndex = l.take posIndex ++ l.drop (posIndex + 1) := by
  unfold eraseElems
  by_cases h1 : posIndex < l.length - 1
  · rw [if_pos h1]
    apply getD_ext
    · simp [List.dropLast_eq_take, moveForwardSeg_length, List.length_take,
        List.length_drop]
      omega
    · intro i hi
      have hi' : i < l.length - 1 := by
        simpa [List.dropLast_eq_take, moveForwardSeg_length,
          List.length_take] using hi
      rw [List.dropLast_eq_take, moveForwardSeg_length]
      rw [getD_take _ _ _ hi' (by rw [moveForwardSeg_length]; omega)]
      rw [moveForwardSeg_getD _ _ _ _ _ (by omega)]
      rcases Nat.lt_or_ge i posIndex with hlt | hge
      · rw [if_neg (by omega)]
        rw [List.getD_append _ _ _ i (by simp [List.length_take]; omega)]
        exact (getD_take l posIndex i hlt (by omega)).symm
      · rw [if_pos (by omega : posIndex ≤ i ∧ i < posIndex + (l.length - (posIndex + 1)))]
        rw [show i + (posIndex + 1 - posIndex) = i + 1 by omega]
        rw [List.getD_append_right _ _ _ i (by simp [List.length_take]; omega)]
        rw [show i - (l.take posIndex).length = i - posIndex by
          simp [List.length_take]; omega]
        rw [getD_drop l (posIndex + 1) (i - posIndex) (by omega)]
        congr 1
        omega
  · rw [if_neg h1]
    have hp : posIndex = l.length - 1 := by omega
    subst hp
    rw [List.dropLast_eq_take]
    rw [show l.length - 1 + 1 = l.length by omega, List.drop_length,
      List.append_nil]

/-! Auxiliary size and buffer facts. -/

theorem emplaceInCurrentAlloc_length [Inhabited α] (l : List α)
    (posIndex : Nat) (x : α) :
    (emplaceInCurrentAlloc l posIndex x).length = l.length + 1 := by
  unfold emplaceInCurrentAlloc
  split
  · rw [List.length_set, moveBackwardSeg_length]
    simp
  · simp

theorem emplaceInNewAllocElems_length (l : List α) (posIndex : Nat) (x : α) :
    (emplaceInNewAllocElems l posIndex x).length = l.length + 1 := by
  unfold emplaceInNewAllocElems relocateN
  simp [List.length_take, List.length_drop]
  omega

/-- Every Emplace call adds exactly one live element, in both branches. -/
theorem emplace_size_succ [Inhabited α] (v : Vec α) (posIndex : Nat) (x : α) :
    ((v.emplace posIndex x).1).size = v.size + 1 := by
  unfold Vec.emplace
  split
  · simpa [Vec.size] using emplaceInNewAllocElems_length v.elems posIndex x
  · simpa [Vec.size] using emplaceInCurrentAlloc_length v.elems posIndex x

/-- When the element fits (`size_ != Capacity()`), Emplace keeps the buffer
and the capacity. -/
theorem emplace_keeps_buffer [Inhabited α] (v : Vec α) (posIndex : Nat)
    (x : α) (h : v.size ≠ v.capacity) :
    ((v.emplace posIndex x).1).bufferId = v.bufferId ∧
    ((v.emplace posIndex x).1).capacity = v.capacity := by
  unfold Vec.emplace
  rw [if_neg h]
  exact ⟨rfl, rfl⟩

/-- When the element fits, an Emplace at position `p` keeps the buffer,
keeps every live element at a slot index below `p` in its slot, and moves
each live element at a slot index at or after `p` up by exactly one slot
inside the same buffer. -/
theorem emplace_in_place_slot_stability [Inhabited α] (v : Vec α) (p : Nat)
    (x : α) (hfit : v.size ≠ v.capacity) :
    ((v.emplace p x).1).bufferId = v.bufferId ∧
    (∀ i, i < p → i < v.size →
      ((v.emplace p x).1).elems.getD i default = v.elems.getD i default) ∧
    (∀ i, p ≤ i → i < v.size →
      ((v.emplace p x).1).elems.getD (i + 1) default
        = v.elems.getD i default) := by
  have helems : ((v.emplace p x).1).elems = emplaceInCurrentAlloc v.elems p x := by
    unfold Vec.emplace
    rw [if_neg hfit]
  refine ⟨(emplace_keeps_buffer v p x hfit).1, ?_, ?_⟩
  · intro i hip hiv
    simp only [Vec.size] at hiv
    rw [helems]
    by_cases hp : p ≤ v.elems.length
    · rw [emplaceInCurrentAlloc_eq v.elems p x hp]
      rw [insertMid_getD v.elems p i x hp (by omega)]
      rw [if_pos hip]
    · unfold emplaceInCurrentAlloc
      rw [if_neg (by omega)]
      exact List.getD_append _ _ _ i (by omega)
  · intro i hpi hiv
    simp only [Vec.size] at hiv
    rw [helems]
    have hp : p ≤ v.elems.length := by omega
    rw [emplaceInCurrentAlloc_eq v.elems p x hp]
    rw [insertMid_getD v.elems p (i + 1) x hp (by omega)]
    rw [if_neg (by omega), if_neg (by omega)]
    simp

theorem applyEmplaces_no_realloc [Inhabited α] (ops : List (Nat × α)) :
    ∀ v : Vec α, v.size + ops.length ≤ v.capacity →
      (v.applyEmplaces ops).bufferId = v.bufferId ∧
      (v.applyEmplaces ops).capacity = v.capacity ∧
      (v.applyEmplaces ops).size = v.size + ops.length := by
  induction ops with
  | nil => intro v _; simp [Vec.applyEmplaces]
  | cons op rest ih =>
    intro v h
    have hlen : (op :: rest).length = rest.length + 1 := rfl
    have hne : v.size ≠ v.capacity := by rw [hlen] at h; omega
    have hkeep := emplace_keeps_buffer v op.1 op.2 hne
    have hsz := emplace_size_succ v op.1 op.2
    have hstep := ih ((v.emplace op.1 op.2).1) (by
      rw [hsz, hkeep.2]
      simp only [List.length_cons] at h
      omega)
    have hunfold : v.applyEmplaces (op :: rest)
        = ((v.emplace op.1 op.2).1).applyEmplaces rest := by
      simp [Vec.applyEmplaces]
    rw [hunfold, hlen]
    refine ⟨?_, ?_, ?_⟩
    · rw [hstep.1, hkeep.1]
    · rw [hstep.2.1, hkeep.2]
    · rw [hstep.2.2, hsz]
      omega

theorem reserve_size (v : Vec α) (k : Nat) : (v.reserve k).size = v.size := by
  unfold Vec.reserve
  split
  · rfl
  · simp [Vec.size, relocateN]

theorem reserve_capacity_ge (v : Vec α) (k : Nat) :
    k ≤ (v.reserve k).capacity := by
  unfold Vec.reserve
  split
  · omega
  · simp

/-! Claim theorems. -/

/-- C4: for a valid position index (`pos_index ≤ size`, one past last maps
to `size`), a successful `Emplace(pos, x)` increments the size by exactly
one, places the new element at `pos_index` with all other elements' values
and relative order unchanged (the result is the insertion of `x` at
`pos_index`), and returns an iterator to index `pos_index`. -/
theorem emplace_valid_position_correct [Inhabited α] (v : Vec α)
    (posIndex : Nat) (x : α) (hpos : posIndex ≤ v.size) :
    ((v.emplace posIndex x).1).size = v.size + 1 ∧
    ((v.emplace posIndex x).1).elems
      = v.elems.take posIndex ++ [x] ++ v.elems.drop posIndex ∧
    (v.emplace posIndex x).2 = posIndex := by
  refine ⟨emplace_size_succ v posIndex x, ?_, ?_⟩
  · unfold Vec.emplace
    split
    · simpa using emplaceInNewAllocElems_eq v.elems posIndex x
    · simpa using emplaceInCurrentAlloc_eq v.elems posIndex x hpos
  · unfold Vec.emplace
    split <;> rfl

/-- Witness for C4 at a concrete input. -/
theorem emplace_valid_position_correct_witness :
    ((Vec.emplace (⟨[1, 2], 4, 0⟩ : Vec Nat) 1 9).1).size
      = (⟨[1, 2], 4, 0⟩ : Vec Nat).size + 1 ∧
    ((Vec.emplace (⟨[1, 2], 4, 0⟩ : Vec Nat) 1 9).1).elems
      = (⟨[1, 2], 4, 0⟩ : Vec Nat).elems.take 1 ++ [9]
        ++ (⟨[1, 2], 4, 0⟩ : Vec Nat).elems.drop 1 ∧
    (Vec.emplace (⟨[1, 2], 4, 0⟩ : Vec Nat) 1 9).2 = 1 :=
  emplace_valid_position_correct (⟨[1, 2], 4, 0⟩ : Vec Nat) 1 9 (by decide)

/-- C5: for a non-empty container and `pos_index < size`, Erase removes
exactly the element at `pos_index` (the later elements are shifted left by
one, preserving relative order), the vacated last slot is destroyed, the
size is decremented by one, the capacity is untouched, the returned
iterator is at `pos_index`, and erasing the last element takes the
no-shift path (only the tail destruction). -/
theorem erase_valid_position_correct [Inhabited α] (v : Vec α)
    (posIndex : Nat) (h : posIndex < v.size) :
    ((v.erase posIndex).1).elems
      = v.elems.take posIndex ++ v.elems.drop (posIndex + 1) ∧
    ((v.erase posIndex).1).size = v.size - 1 ∧
    ((v.erase posIndex).1).capacity = v.capacity ∧
    (v.erase posIndex).2 = posIndex ∧
    (posIndex = v.size - 1 →
      eraseElems v.elems posIndex = v.elems.dropLast) := by
  have helems := eraseElems_eq v.elems posIndex h
  refine ⟨helems, ?_, rfl, rfl, ?_⟩
  · show (eraseElems v.elems posIndex).length = v.size - 1
    rw [helems]
    simp only [Vec.size] at h ⊢
    simp [List.length_take, List.length_drop]
    omega
  · intro hlast
    unfold eraseElems
    rw [if_neg (by simp [Vec.size] at hlast; omega)]

/-- Witness for C5 at a concrete input. -/
theorem erase_valid_position_correct_witness :
    ((Vec.erase (⟨[1, 2, 3], 4, 0⟩ : Vec Nat) 1).1).elems
      = (⟨[1, 2, 3], 4, 0⟩ : Vec Nat).elems.take 1
        ++ (⟨[1, 2, 3], 4, 0⟩ : Vec Nat).elems.drop 2 ∧
    ((Vec.erase (⟨[1, 2, 3], 4, 0⟩ : Vec Nat) 1).1).size
      = (⟨[1, 2, 3], 4, 0⟩ : Vec Nat).size - 1 ∧
    ((Vec.erase (⟨[1, 2, 3], 4, 0⟩ : Vec Nat) 1).1).capacity
      = (⟨[1, 2, 3], 4, 0⟩ : Vec Nat).capacity ∧
    (Vec.erase (⟨[1, 2, 3], 4, 0⟩ : Vec Nat) 1).2 = 1 ∧
    (1 = (⟨[1, 2, 3], 4, 0⟩ : Vec Nat).size - 1 →
      eraseElems (⟨[1, 2, 3], 4, 0⟩ : Vec Nat).elems 1
        = (⟨[1, 2, 3], 4, 0⟩ : Vec Nat).elems.dropLast) :=
  erase_valid_position_correct (⟨[1, 2, 3], 4, 0⟩ : Vec Nat) 1 (by decide)

/-- C6: Reserve is a no-op (same size, capacity, elements, buffer) when the
requested capacity does not exceed the current one; otherwise it succeeds
with capacity exactly `new_capacity`, the elements relocated in index order
with values and order preserved, and the size unchanged. -/
theorem reserve_correct (v : Vec α) (newCapacity : Nat) :
    (newCapacity ≤ v.capacity → v.reserve newCapacity = v) ∧
    (v.capacity < newCapacity →
      (v.reserve newCapacity).capacity = newCapacity ∧
      (v.reserve newCapacity).elems = v.elems ∧
      (v.reserve newCapacity).size = v.size) := by
  constructor
  · intro hle
    unfold Vec.reserve
    rw [if_pos hle]
  · intro hgt
    unfold Vec.reserve
    rw [if_neg (by omega)]
    refine ⟨rfl, ?_, ?_⟩
    · simp [relocateN, Vec.size]
    · simp [Vec.size, relocateN]

/-- Witness for C6 at concrete inputs (both branches). -/
theorem reserve_correct_witness :
    Vec.reserve (⟨[1, 2], 3, 0⟩ : Vec Nat) 2 = (⟨[1, 2], 3, 0⟩ : Vec Nat) ∧
    (Vec.reserve (⟨[1, 2], 3, 0⟩ : Vec Nat) 5).capacity = 5 :=
  ⟨(reserve_correct (⟨[1, 2], 3, 0⟩ : Vec Nat) 2).1 (by decide),
   ((reserve_correct (⟨[1, 2], 3, 0⟩ : Vec Nat) 5).2 (by decide)).1⟩

/-- C7: the relocation of live elements into new storage — in Reserve and in
the growth path of Emplace — uses move construction exactly when T's move
construction cannot fail or T has no usable copy constructor (the spec-side
condition `specUsesMove`), and copy construction otherwise. -/
theorem relocation_strategy_matches_spec (tr : TypeTraits)
    (moveOne copyOne : α → α) (l : List α) (n posIndex : Nat) (x : α) :
    relocationUsesMove tr = specUsesMove tr ∧
    reserveRelocate tr moveOne copyOne l n
      = (if specUsesMove tr = true then (relocateN l n).map moveOne
         else (relocateN l n).map copyOne) ∧
    emplaceNewRelocate tr moveOne copyOne l posIndex x
      = (if specUsesMove tr = true then
           (l.take posIndex).map moveOne ++ [x]
             ++ (l.drop posIndex).map moveOne
         else
           (l.take posIndex).map copyOne ++ [x]
             ++ (l.drop posIndex).map copyOne) := by
  obtain ⟨m, c⟩ := tr
  refine ⟨rfl, ?_, ?_⟩ <;>
    cases m <;> cases c <;>
      simp [reserveRelocate, emplaceNewRelocate, relocationUsesMove,
        specUsesMove]

/-- C8 counterexample: start from a one-element container, `Reserve(3)`,
then a single insertion at the front (count `2 ≤ 3`, so the sequence is
within the reserved capacity).  No reallocation happens (the buffer
identity is unchanged), but the existing element does not keep its storage
address: slot 0 of the buffer no longer holds it — it moved to slot 1. -/
theorem reserve_then_insert_moves_existing_element :
    ((Vec.emplace (Vec.reserve (⟨[5], 1, 0⟩ : Vec Nat) 3) 0 7).1).bufferId
      = (Vec.reserve (⟨[5], 1, 0⟩ : Vec Nat) 3).bufferId ∧
    (Vec.reserve (⟨[5], 1, 0⟩ : Vec Nat) 3).size + 1 ≤ 3 ∧
    (Vec.reserve (⟨[5], 1, 0⟩ : Vec Nat) 3).elems.getD 0 0 = 5 ∧
    ((Vec.emplace (Vec.reserve (⟨[5], 1, 0⟩ : Vec Nat) 3) 0 7).1).elems.getD 0 0 ≠ 5 ∧
    ((Vec.emplace (Vec.reserve (⟨[5], 1, 0⟩ : Vec Nat) 3) 0 7).1).elems.getD 1 0 = 5 := by
  decide

/-- C8 (amended): after `Reserve(k)`, any sequence of Emplace-family
operations that never takes the element count beyond `k` performs no
reallocation: the capacity stays equal to the capacity established by
`Reserve(k)` and the storage block identity is unchanged across the whole
sequence; within that block, each insertion of the sequence, at position
`p`, leaves every existing element at a slot index below `p` in its slot
and moves each existing element at a slot index at or after `p` up by
exactly one slot — so an element's address changes only when an insertion
occurs at or before its position, and only inside the same block. -/
theorem reserve_then_emplaces_no_realloc [Inhabited α] (v : Vec α) (k : Nat)
    (ops : List (Nat × α)) (h : v.size + ops.length ≤ k) :
    ((v.reserve k).applyEmplaces ops).bufferId = (v.reserve k).bufferId ∧
    ((v.reserve k).applyEmplaces ops).capacity = (v.reserve k).capacity ∧
    ((v.reserve k).applyEmplaces ops).size = v.size + ops.length ∧
    (∀ pre op suf, ops = pre ++ op :: suf →
      ((((v.reserve k).applyEmplaces pre).emplace op.1 op.2).1).bufferId
        = ((v.reserve k).applyEmplaces pre).bufferId ∧
      (∀ i, i < op.1 → i < ((v.reserve k).applyEmplaces pre).size →
        ((((v.reserve k).applyEmplaces pre).emplace op.1 op.2).1).elems.getD
            i default
          = ((v.reserve k).applyEmplaces pre).elems.getD i default) ∧
      (∀ i, op.1 ≤ i → i < ((v.reserve k).applyEmplaces pre).size →
        ((((v.reserve k).applyEmplaces pre).emplace op.1 op.2).1).elems.getD
            (i + 1) default
          = ((v.reserve k).applyEmplaces pre).elems.getD i default)) := by
  have hcap := reserve_capacity_ge v k
  have hsize := reserve_size v k
  obtain ⟨h1, h2, h3⟩ := applyEmplaces_no_realloc ops (v.reserve k)
    (by rw [hsize]; omega)
  refine ⟨h1, h2, by rw [h3, hsize], ?_⟩
  intro pre op suf heq
  subst heq
  simp only [List.length_append, List.length_cons] at h
  obtain ⟨w1, w2, w3⟩ := applyEmplaces_no_realloc pre (v.reserve k)
    (by rw [hsize]; omega)
  have hfit : ((v.reserve k).applyEmplaces pre).size
      ≠ ((v.reserve k).applyEmplaces pre).capacity := by
    rw [w3, w2, hsize]
    omega
  exact emplace_in_place_slot_stability _ op.1 op.2 hfit

/-- Witness for the amended C8 at a concrete input. -/
theorem reserve_then_emplaces_no_realloc_witness :
    ((Vec.reserve (⟨[], 0, 0⟩ : Vec Nat) 2).applyEmplaces
        [(0, 5), (1, 6)]).bufferId
      = (Vec.reserve (⟨[], 0, 0⟩ : Vec Nat) 2).bufferId ∧
    ((Vec.reserve (⟨[], 0, 0⟩ : Vec Nat) 2).applyEmplaces
        [(0, 5), (1, 6)]).capacity
      = (Vec.reserve (⟨[], 0, 0⟩ : Vec Nat) 2).capacity ∧
    ((Vec.reserve (⟨[], 0, 0⟩ : Vec Nat) 2).applyEmplaces
        [(0, 5), (1, 6)]).size
      = (⟨[], 0, 0⟩ : Vec Nat).size + [(0, 5), (1, 6)].length ∧
    (∀ pre op suf, ([(0, 5), (1, 6)] : List (Nat × Nat)) = pre ++ op :: suf →
      ((((Vec.reserve (⟨[], 0, 0⟩ : Vec Nat) 2).applyEmplaces pre).emplace
          op.1 op.2).1).bufferId
        = ((Vec.reserve (⟨[], 0, 0⟩ : Vec Nat) 2).applyEmplaces pre).bufferId ∧
      (∀ i, i < op.1 →
        i < ((Vec.reserve (⟨[], 0, 0⟩ : Vec Nat) 2).applyEmplaces pre).size →
        ((((Vec.reserve (⟨[], 0, 0⟩ : Vec Nat) 2).applyEmplaces pre).emplace
            op.1 op.2).1).elems.getD i default
          = ((Vec.reserve (⟨[], 0, 0⟩ : Vec Nat) 2).applyEmplaces
              pre).elems.getD i default) ∧
      (∀ i, op.1 ≤ i →
        i < ((Vec.reserve (⟨[], 0, 0⟩ : Vec Nat) 2).applyEmplaces pre).size →
        ((((Vec.reserve (⟨[], 0, 0⟩ : Vec Nat) 2).applyEmplaces pre).emplace
            op.1 op.2).1).elems.getD (i + 1) default
          = ((Vec.reserve (⟨[], 0, 0⟩ : Vec Nat) 2).applyEmplaces
              pre).elems.getD i default)) :=
  reserve_then_emplaces_no_realloc (⟨[], 0, 0⟩ : Vec Nat) 2
    [(0, 5), (1, 6)] (by decide)

/-- C9: self-assignment is detected (`this != &rhs` guard) and is a no-op
for both copy assignment and move assignment: the object keeps its size,
capacity and element values. -/
theorem self_assignment_noop (v : Vec α) :
    Vec.copyAssign true v v = v ∧ (Vec.moveAssign true v v).1 = (v, v) := by
  constructor
  · unfold Vec.copyAssign
    rw [if_pos rfl]
  · unfold Vec.moveAssign
    rw [if_pos rfl]

/-- C10: Swap exchanges exactly the two containers' sizes, capacities,
buffers and element sequences, performs zero element constructions, copies,
moves or destructions, and swapping twice restores both containers. -/
theorem swap_exchanges (a b : Vec α) :
    (Vec.swapOp a b).1.1 = b ∧
    (Vec.swapOp a b).1.2 = a ∧
    (Vec.swapOp a b).2 = 0 ∧
    (Vec.swapOp (Vec.swapOp a b).1.1 (Vec.swapOp a b).1.2).1 = (a, b) := by
  refine ⟨rfl, rfl, rfl, rfl⟩

/-- C1 (code bug): the copy-relocation growth path of Emplace leaks.  At
the concrete input — container `[5]` with `size == capacity == 1`,
PushBack of `7` (growth, `pos_index = 1`), and a constructor budget of 1 so
that the new element's construction succeeds and the relocating copy of
the existing element fails — the failure escapes with the container
unchanged, but the one element already constructed in the destination
buffer is destroyed zero times, not exactly once: it is abandoned when the
new block is deallocated. -/
theorem emplace_growth_copy_leaks :
    Vec.emplaceGrowthCopy (⟨[5], 1, 0⟩ : Vec Nat) 1 7 1
      = .error (⟨1, 0⟩, (⟨[5], 1, 0⟩ : Vec Nat)) ∧
    (1 : Nat) ≠ 0 :=
  ⟨rfl, by decide⟩

/-- C2 (code bug): move assignment between distinct vectors performs zero
destructor calls on the target's old live elements before the target's old
buffer is deallocated, although the target holds one live element — that
element's destructor is skipped. -/
theorem move_assign_skips_destructors :
    (Vec.moveAssign false (⟨[5], 1, 1⟩ : Vec Nat) (⟨[7], 1, 2⟩ : Vec Nat)).2
      = 0 ∧
    (⟨[5], 1, 1⟩ : Vec Nat).size = 1 ∧
    (0 : Nat) ≠ 1 := by
  decide

/-- C3 (code bug): growing Resize of an empty container to 3 with a default
constructor that fails on its second call, for a T that is copy
constructible without a nothrow move (the try/catch branch): one new slot
was constructed, but it receives two destructor calls (once from the
algorithm's own cleanup, once from the catch block's `destroy_n` over the
whole range) and two never-constructed slots receive a destructor call
each; the claim requires exactly one call on the constructed slot and none
on uninitialized slots. -/
theorem resize_growth_destroys_raw_slots :
    Vec.resizeTracked ⟨false, true⟩ (⟨[], 0, 0⟩ : Vec Nat) 3 1
      = .error (⟨1, 2, 2⟩, (⟨[], 3, 1⟩ : Vec Nat)) ∧
    (2 : Nat) ≠ 1 ∧ (2 : Nat) ≠ 0 :=
  ⟨rfl, by decide, by decide⟩

end AdvVec
